import Mathlib

/-!
Verification of the renderer bridge of `selaurawhateverfuckthisclient`
(`renderer.cpp`): the ImGui-to-Minecraft draw-data transcoder, the lazy
font-texture manager, the per-frame controller and the rectangle helpers.

The C++ code is shallowly embedded: renderer state is the explicit
`RendererState` record, and every externally visible action of a call
(texture uploads, texture fetches, tessellator calls, mesh flushes) is
recorded in order in a `List Event` trace.  Vertex coordinates, UVs and
scale factors are modelled as rationals; packed 32-bit colors as naturals
reduced mod 2^32.
-/

namespace Selaura

/-- One ImGui vertex: screen-space position, texture UV, packed RGBA color
(`ImDrawVert` with `pos`, `uv`, `col`). -/
structure ImDrawVert where
  posX : ℚ
  posY : ℚ
  uvX : ℚ
  uvY : ℚ
  col : ℕ
deriving Repr, DecidableEq

/-- One ImGui draw command; only the element count is consumed by
`render_draw_data` (clip rect and texture id are ignored by the code). -/
structure ImDrawCmd where
  ElemCount : ℕ
deriving Repr, DecidableEq

/-- One ImGui draw list: command buffer plus shared vertex and index
buffers (`ImDrawList.CmdBuffer/VtxBuffer/IdxBuffer`). -/
structure ImDrawList where
  CmdBuffer : List ImDrawCmd
  VtxBuffer : List ImDrawVert
  IdxBuffer : List ℕ
deriving Repr, DecidableEq

/-- A frame's draw data: the ordered collection of draw lists
(`ImDrawData.CmdLists`, with `CmdListsCount` its length). -/
structure ImDrawData where
  CmdLists : List ImDrawList
deriving Repr, DecidableEq

/-- The renderer's cross-frame mutable state: the texture invalidation
flag `textures_unloaded`. -/
structure RendererState where
  textures_unloaded : Bool
deriving Repr, DecidableEq

/-- Externally visible actions performed by the renderer, in order:
texture-group upload (`uploadTexture`), render-context texture fetch
(`ctx.getTexture`), tessellator calls (`tess->begin`, `tess->color`,
`tess->vertexUV`), and the immediate mesh flush
(`MeshHelpers::renderMeshImmediately`). -/
inductive Event where
  | uploadTexture
  | getTexture
  | beginBatch
  | color (c : ℕ)
  | vertexUV (x y z u v : ℚ)
  | flush
deriving Repr, DecidableEq

/-- Default-constructed vertex, used as the out-of-range read default
(an out-of-range index is undefined behavior in the C++ source). -/
def defaultVert : ImDrawVert := ⟨0, 0, 0, 0, 0⟩

/-- The trace of one `load_fonts` call: it unconditionally uploads the
font atlas through the texture group and fetches the texture handle
(lines 33-45 of `renderer.cpp`). -/
def load_fonts_events : List Event := [Event.uploadTexture, Event.getTexture]

/-- `renderer::load_fonts` (lines 24-48): builds the font atlas image,
uploads it, rebinds the texture pointer, and clears `textures_unloaded`.
There is no validity guard inside the function. -/
def load_fonts (s : RendererState) : RendererState × List Event :=
  ({ s with textures_unloaded := false }, load_fonts_events)

/-- `renderer::set_textures_unloaded` (lines 11-13).  The body is
`this->textures_unloaded = false;` — it writes `false`, not `true`. -/
def set_textures_unloaded (s : RendererState) : RendererState :=
  { s with textures_unloaded := false }

/-- The ImGui IO state consumed by `new_frame`: the display size slot. -/
structure ImGuiIO where
  DisplaySizeX : ℚ
  DisplaySizeY : ℚ
deriving Repr, DecidableEq

/-- `renderer::new_frame` (lines 50-56): copies the screen size from the
render context's GUI data into `io.DisplaySize.x` and `io.DisplaySize.y`. -/
def new_frame (_io : ImGuiIO) (screenSize : ℚ × ℚ) : ImGuiIO :=
  { DisplaySizeX := screenSize.1, DisplaySizeY := screenSize.2 }

/-- Vertex-buffer read `vtx_buffer[j]`. -/
def vtxAt (cl : ImDrawList) (j : ℕ) : ImDrawVert := cl.VtxBuffer.getD j defaultVert

/-- Index-buffer read `idx_buffer[i]`. -/
def idxAt (cl : ImDrawList) (i : ℕ) : ℕ := cl.IdxBuffer.getD i 0

/-- The two tessellator calls for one vertex:
`tess->color(v.col)` then
`tess->vertexUV(v.pos.x / scale, v.pos.y / scale, 0.0f, v.uv.x, v.uv.y)`
(lines 82-89). -/
def vertEvents (scale : ℚ) (v : ImDrawVert) : List Event :=
  [Event.color v.col, Event.vertexUV (v.posX / scale) (v.posY / scale) 0 v.uvX v.uvY]

/-- The iteration values of `for (unsigned int i = 0; i < ElemCount; i += 3)`:
the multiples of 3 below `elemCount`. -/
def triangleStarts (elemCount : ℕ) : List ℕ :=
  (List.range elemCount).filter (fun i => i % 3 == 0)

/-- One loop iteration of the triangle loop (lines 77-90): reads
`v0 = vtx[idx[i+2]]`, `v1 = vtx[idx[i+1]]`, `v2 = vtx[idx[i+0]]` and
emits them in that order. -/
def triEvents (cl : ImDrawList) (scale : ℚ) (i : ℕ) : List Event :=
  vertEvents scale (vtxAt cl (idxAt cl (i + 2))) ++
  vertEvents scale (vtxAt cl (idxAt cl (i + 1))) ++
  vertEvents scale (vtxAt cl (idxAt cl i))

/-- One draw command (lines 70-95): `tess->begin(TriangleList, 0)`, the
triangle loop, then `renderMeshImmediately`. -/
def cmdEvents (cl : ImDrawList) (scale : ℚ) (cmd : ImDrawCmd) : List Event :=
  Event.beginBatch :: ((triangleStarts cmd.ElemCount).flatMap (triEvents cl scale) ++ [Event.flush])

/-- One draw list: its commands in order (loop at line 70). -/
def listEvents (scale : ℚ) (cl : ImDrawList) : List Event :=
  cl.CmdBuffer.flatMap (cmdEvents cl scale)

/-- The geometry part of `render_draw_data`: all draw lists in order
(loop at line 67). -/
def geomEvents (data : ImDrawData) (scale : ℚ) : List Event :=
  data.CmdLists.flatMap (listEvents scale)

/-- `renderer::render_draw_data` (lines 58-97): refresh the font texture
when `textures_unloaded` is set, then transcode every draw list.  `scale`
is `ctx.getClientInstance()->getGuiData()->getGuiScale()`. -/
def render_draw_data (s : RendererState) (data : ImDrawData) (scale : ℚ) :
    RendererState × List Event :=
  let first := if s.textures_unloaded then load_fonts s else (s, [])
  (first.1, first.2 ++ geomEvents data scale)

/-- C++ cast of a nonnegative float component to `ImU32` (truncation);
a negative argument is undefined behavior in the source and maps to 0. -/
def f2u32 (q : ℚ) : ℕ := q.floor.toNat % 2 ^ 32

/-- The `IM_COL32(R,G,B,A)` macro: `(A<<24)|(B<<16)|(G<<8)|R` as `ImU32`. -/
def IM_COL32 (r g b a : ℚ) : ℕ :=
  ((f2u32 a <<< 24) ||| (f2u32 b <<< 16) ||| (f2u32 g <<< 8) ||| f2u32 r) % 2 ^ 32

/-- One rectangle primitive appended to the background draw list by
`AddRectFilled(pMin, pMax, col, radius, flags)`. -/
structure RectCmd where
  pMinX : ℚ
  pMinY : ℚ
  pMaxX : ℚ
  pMaxY : ℚ
  col : ℕ
  radius : ℚ
  flags : ℤ
deriving Repr, DecidableEq

/-- `ImDrawList::AddRectFilled`: appends the rectangle to the draw list. -/
def AddRectFilled (dl : List RectCmd) (pMinX pMinY pMaxX pMaxY : ℚ) (col : ℕ)
    (radius : ℚ) (flags : ℤ) : List RectCmd :=
  dl ++ [⟨pMinX, pMinY, pMaxX, pMaxY, col, radius, flags⟩]

/-- Modelled from the spec: the default value of the draw-flags parameter
of the RGBA `draw_filled_rect` overload.  Its declaration is in
`renderer.hpp`, which is not among the sources; the spec calls the value
the RGB overload forwards "the default draw flags" (ImGui's
`ImDrawFlags_None`, i.e. 0). -/
def defaultDrawFlags : ℤ := 0

/-- RGBA (`glm::vec4`) overload of `renderer::draw_filled_rect`
(lines 107-110). -/
def draw_filled_rect4 (dl : List RectCmd) (posX posY sizeX sizeY : ℚ)
    (r g b a : ℚ) (radius : ℚ) (flags : ℤ) : List RectCmd :=
  AddRectFilled dl posX posY (posX + sizeX) (posY + sizeY) (IM_COL32 r g b a) radius flags

/-- RGB (`glm::vec3`) overload of `renderer::draw_filled_rect`
(lines 111-113): forwards with alpha `1.0f` and omits the flags argument,
so the RGBA overload receives its default. -/
def draw_filled_rect3 (dl : List RectCmd) (posX posY sizeX sizeY : ℚ)
    (r g b : ℚ) (radius : ℚ) (_flags : ℤ) : List RectCmd :=
  draw_filled_rect4 dl posX posY sizeX sizeY r g b 1 radius defaultDrawFlags

/-- An emitted vertex as observed on the tessellator: the five arguments
of `vertexUV`. -/
abbrev EmVert := ℚ × ℚ × ℚ × ℚ × ℚ

/-- What `render_draw_data` submits for a source vertex `v`: position
divided by the GUI scale, z = 0, UV unchanged. -/
def emitOf (scale : ℚ) (v : ImDrawVert) : EmVert :=
  (v.posX / scale, v.posY / scale, 0, v.uvX, v.uvY)

/-- Extracts the `vertexUV` calls of a trace, in order. -/
def emittedVerts (tr : List Event) : List EmVert :=
  tr.filterMap (fun e => match e with
    | Event.vertexUV x y z u v => some (x, y, z, u, v)
    | _ => none)

/-- Groups a vertex stream into consecutive triangles. -/
def groupTriples {α : Type} : List α → List (α × α × α)
  | a :: b :: c :: rest => (a, b, c) :: groupTriples rest
  | _ => []

/-- Recognizes a tessellator call. -/
def isTessEvent : Event → Bool
  | Event.beginBatch => true
  | Event.color _ => true
  | Event.vertexUV _ _ _ _ _ => true
  | Event.flush => true
  | _ => false

/-- Recognizes a texture access (upload or handle fetch). -/
def isTextureEvent : Event → Bool
  | Event.uploadTexture => true
  | Event.getTexture => true
  | _ => false

/-- Recognizes the texture-group upload. -/
def isUpload : Event → Bool
  | Event.uploadTexture => true
  | _ => false

/-- Recognizes `tess->begin`. -/
def isBegin : Event → Bool
  | Event.beginBatch => true
  | _ => false

/-- Recognizes `renderMeshImmediately`. -/
def isFlush : Event → Bool
  | Event.flush => true
  | _ => false

/-- Number of texture-group uploads in a trace. -/
def countUploads (tr : List Event) : ℕ := (tr.filter isUpload).length

/-- Number of opened tessellator batches in a trace. -/
def countBegins (tr : List Event) : ℕ := (tr.filter isBegin).length

/-- Number of mesh flushes in a trace. -/
def countFlushes (tr : List Event) : ℕ := (tr.filter isFlush).length

/-- The source index triplets `(idx[i], idx[i+1], idx[i+2])` of one draw
command, one per triangle, in source order. -/
def sourceTriplets (cl : ImDrawList) (cmd : ImDrawCmd) : List (ℕ × ℕ × ℕ) :=
  (triangleStarts cmd.ElemCount).map (fun i => (idxAt cl i, idxAt cl (i + 1), idxAt cl (i + 2)))

/-- The triangles one draw command is expected to produce: for each source
index triplet `(a, b, c)`, the vertices `vtx[c], vtx[b], vtx[a]` in that
order, each transformed by `emitOf`. -/
def cmdTriangles (cl : ImDrawList) (scale : ℚ) (cmd : ImDrawCmd) : List (EmVert × EmVert × EmVert) :=
  (sourceTriplets cl cmd).map fun t =>
    (emitOf scale (vtxAt cl t.2.2), emitOf scale (vtxAt cl t.2.1), emitOf scale (vtxAt cl t.1))

/-- The triangles the renderer is expected to emit for a whole frame, in
source order. -/
def expectedTriangles (data : ImDrawData) (scale : ℚ) : List (EmVert × EmVert × EmVert) :=
  data.CmdLists.flatMap fun cl => cl.CmdBuffer.flatMap (cmdTriangles cl scale)

/-- The vertex stream of one draw command, flattened. -/
def cmdVertList (cl : ImDrawList) (scale : ℚ) (cmd : ImDrawCmd) : List EmVert :=
  (triangleStarts cmd.ElemCount).flatMap fun i =>
    [emitOf scale (vtxAt cl (idxAt cl (i + 2))),
     emitOf scale (vtxAt cl (idxAt cl (i + 1))),
     emitOf scale (vtxAt cl (idxAt cl i))]

/-- Total triangle count of a frame, counting `ElemCount / 3` whole
triangles per command. -/
def totalTriangles (data : ImDrawData) : ℕ :=
  (data.CmdLists.map fun cl => (cl.CmdBuffer.map fun cmd => cmd.ElemCount / 3).sum).sum

/-- Total number of draw commands of a frame, across all draw lists. -/
def totalCommands (data : ImDrawData) : ℕ :=
  (data.CmdLists.map fun cl => cl.CmdBuffer.length).sum

/-- Splits a trace at the mesh flushes: chunk `k` holds the `vertexUV`
payloads submitted by the `k`-th `renderMeshImmediately` call, in order. -/
def chunkAux : List Event → List EmVert → List (List EmVert)
  | [], _ => []
  | Event.flush :: rest, acc => acc.reverse :: chunkAux rest []
  | Event.vertexUV x y z u v :: rest, acc => chunkAux rest ((x, y, z, u, v) :: acc)
  | _ :: rest, acc => chunkAux rest acc

/-- The per-flush vertex chunks of a trace. -/
def flushChunks (tr : List Event) : List (List EmVert) := chunkAux tr []

/-- Concrete example data: one draw list, one command over one triangle,
indices `[0, 1, 2]`. -/
def exVtx : List ImDrawVert := [⟨2, 4, 5, 6, 7⟩, ⟨8, 10, 11, 12, 13⟩, ⟨14, 16, 17, 18, 19⟩]

/-- Concrete example list. -/
def exList : ImDrawList := { CmdBuffer := [⟨3⟩], VtxBuffer := exVtx, IdxBuffer := [0, 1, 2] }

/-- Concrete example frame. -/
def exData : ImDrawData := ⟨[exList]⟩

/-! ## Trace-extraction lemmas -/

theorem emittedVerts_append (A B : List Event) :
    emittedVerts (A ++ B) = emittedVerts A ++ emittedVerts B :=
  List.filterMap_append A B _

theorem emittedVerts_flatMap {α : Type} (l : List α) (f : α → List Event) :
    emittedVerts (l.flatMap f) = l.flatMap (fun x => emittedVerts (f x)) := by
  induction l with
  | nil => rfl
  | cons a t ih => simp only [List.flatMap_cons, emittedVerts_append, ih]

theorem emittedVerts_triEvents (cl : ImDrawList) (scale : ℚ) (i : ℕ) :
    emittedVerts (triEvents cl scale i) =
      [emitOf scale (vtxAt cl (idxAt cl (i + 2))),
       emitOf scale (vtxAt cl (idxAt cl (i + 1))),
       emitOf scale (vtxAt cl (idxAt cl i))] := rfl

theorem emittedVerts_beginBatch_cons (X : List Event) :
    emittedVerts (Event.beginBatch :: X) = emittedVerts X := rfl

theorem emittedVerts_load : emittedVerts load_fonts_events = [] := rfl

theorem emittedVerts_cmdEvents (cl : ImDrawList) (scale : ℚ) (cmd : ImDrawCmd) :
    emittedVerts (cmdEvents cl scale cmd) = cmdVertList cl scale cmd := by
  unfold cmdEvents cmdVertList
  rw [emittedVerts_beginBatch_cons, emittedVerts_append, emittedVerts_flatMap]
  simp only [emittedVerts_triEvents]
  show _ ++ emittedVerts [Event.flush] = _
  rw [show emittedVerts [Event.flush] = [] from rfl, List.append_nil]

theorem emittedVerts_geomEvents (data : ImDrawData) (scale : ℚ) :
    emittedVerts (geomEvents data scale) =
      data.CmdLists.flatMap (fun cl => cl.CmdBuffer.flatMap (cmdVertList cl scale)) := by
  unfold geomEvents listEvents
  rw [emittedVerts_flatMap]
  simp only [emittedVerts_flatMap, emittedVerts_cmdEvents]

theorem emittedVerts_render (s : RendererState) (data : ImDrawData) (scale : ℚ) :
    emittedVerts (render_draw_data s data scale).2 =
      data.CmdLists.flatMap (fun cl => cl.CmdBuffer.flatMap (cmdVertList cl scale)) := by
  unfold render_draw_data
  cases h : s.textures_unloaded <;>
    simp [h, load_fonts, emittedVerts_append, emittedVerts_load, emittedVerts_geomEvents]

/-! ## Triangle-grouping lemmas -/

theorem groupTriples_block {α : Type} (L : List (α × α × α)) (tail : List α) :
    groupTriples ((L.flatMap fun t => [t.1, t.2.1, t.2.2]) ++ tail) = L ++ groupTriples tail := by
  induction L with
  | nil => simp
  | cons t ts ih =>
    rw [List.flatMap_cons, List.append_assoc]
    show (t.1, t.2.1, t.2.2) :: groupTriples ((ts.flatMap fun t => [t.1, t.2.1, t.2.2]) ++ tail)
      = (t :: ts) ++ groupTriples tail
    rw [ih]
    rfl

theorem flatMap_flatMap {α β γ : Type} (l : List α) (f : α → List β) (g : β → List γ) :
    (l.flatMap f).flatMap g = l.flatMap (fun x => (f x).flatMap g) := by
  induction l with
  | nil => rfl
  | cons a t ih => simp [List.flatMap_cons, ih]

theorem cmdVertList_eq_flat (cl : ImDrawList) (scale : ℚ) (cmd : ImDrawCmd) :
    cmdVertList cl scale cmd =
      (cmdTriangles cl scale cmd).flatMap fun t => [t.1, t.2.1, t.2.2] := by
  unfold cmdVertList cmdTriangles sourceTriplets
  generalize triangleStarts cmd.ElemCount = l
  induction l with
  | nil => rfl
  | cons a t ih => simp [List.flatMap_cons, ih]

theorem listVerts_eq_flat (cl : ImDrawList) (scale : ℚ) (l : List ImDrawCmd) :
    l.flatMap (cmdVertList cl scale) =
      (l.flatMap (cmdTriangles cl scale)).flatMap fun t => [t.1, t.2.1, t.2.2] := by
  induction l with
  | nil => rfl
  | cons a t ih => simp [List.flatMap_cons, List.flatMap_append, cmdVertList_eq_flat, ih]

theorem dataVerts_eq_flat (scale : ℚ) (L : List ImDrawList) :
    (L.flatMap fun cl => cl.CmdBuffer.flatMap (cmdVertList cl scale)) =
      (L.flatMap fun cl => cl.CmdBuffer.flatMap (cmdTriangles cl scale)).flatMap
        fun t => [t.1, t.2.1, t.2.2] := by
  induction L with
  | nil => rfl
  | cons a t ih =>
    simp [List.flatMap_cons, List.flatMap_append, listVerts_eq_flat, ih]
    rw [flatMap_flatMap]

theorem groupTriples_render (s : RendererState) (data : ImDrawData) (scale : ℚ) :
    groupTriples (emittedVerts (render_draw_data s data scale).2) =
      expectedTriangles data scale := by
  rw [emittedVerts_render]
  unfold expectedTriangles
  rw [dataVerts_eq_flat]
  have h0 := groupTriples_block
    (data.CmdLists.flatMap fun cl => cl.CmdBuffer.flatMap (cmdTriangles cl scale)) ([] : List EmVert)
  rw [List.append_nil, show groupTriples ([] : List EmVert) = [] from rfl, List.append_nil] at h0
  exact h0

/-! ## Counting lemmas -/

theorem triangleStarts_length (n : ℕ) : (triangleStarts n).length = (n + 2) / 3 := by
  induction n with
  | zero => rfl
  | succ n ih =>
    unfold triangleStarts at ih ⊢
    rw [List.range_succ, List.filter_append, List.length_append, ih]
    by_cases hn : n % 3 = 0
    · simp [hn]
      omega
    · simp [hn]
      omega

theorem cmdTriangles_length (cl : ImDrawList) (scale : ℚ) (cmd : ImDrawCmd)
    (h : cmd.ElemCount % 3 = 0) :
    (cmdTriangles cl scale cmd).length = cmd.ElemCount / 3 := by
  unfold cmdTriangles sourceTriplets
  rw [List.length_map, List.length_map, triangleStarts_length]
  omega

theorem listTriangles_length (cl : ImDrawList) (scale : ℚ) (l : List ImDrawCmd)
    (h : ∀ cmd ∈ l, cmd.ElemCount % 3 = 0) :
    (l.flatMap (cmdTriangles cl scale)).length = (l.map fun cmd => cmd.ElemCount / 3).sum := by
  induction l with
  | nil => rfl
  | cons cmd t ih =>
    simp only [List.flatMap_cons, List.length_append, List.map_cons, List.sum_cons]
    rw [cmdTriangles_length cl scale cmd (h cmd (List.mem_cons_self cmd t)),
      ih (fun c hc => h c (List.mem_cons_of_mem cmd hc))]

theorem dataTriangles_length (scale : ℚ) (L : List ImDrawList)
    (h : ∀ cl ∈ L, ∀ cmd ∈ cl.CmdBuffer, cmd.ElemCount % 3 = 0) :
    (L.flatMap fun cl => cl.CmdBuffer.flatMap (cmdTriangles cl scale)).length =
      (L.map fun cl => (cl.CmdBuffer.map fun cmd => cmd.ElemCount / 3).sum).sum := by
  induction L with
  | nil => rfl
  | cons cl t ih =>
    simp only [List.flatMap_cons, List.length_append, List.map_cons, List.sum_cons]
    rw [listTriangles_length cl scale cl.CmdBuffer (h cl (List.mem_cons_self cl t)),
      ih (fun c hc => h c (List.mem_cons_of_mem cl hc))]

theorem expectedTriangles_length (data : ImDrawData) (scale : ℚ)
    (h : ∀ cl ∈ data.CmdLists, ∀ cmd ∈ cl.CmdBuffer, cmd.ElemCount % 3 = 0) :
    (expectedTriangles data scale).length = totalTriangles data := by
  unfold expectedTriangles totalTriangles
  exact dataTriangles_length scale data.CmdLists h

/-! ## Event-classification lemmas -/

theorem mem_triEvents_shape (cl : ImDrawList) (scale : ℚ) (i : ℕ) (e : Event)
    (he : e ∈ triEvents cl scale i) :
    (∃ c, e = Event.color c) ∨ ∃ x y z u v, e = Event.vertexUV x y z u v := by
  simp [triEvents, vertEvents] at he
  rcases he with rfl | rfl | rfl | rfl | rfl | rfl
  · exact Or.inl ⟨_, rfl⟩
  · exact Or.inr ⟨_, _, _, _, _, rfl⟩
  · exact Or.inl ⟨_, rfl⟩
  · exact Or.inr ⟨_, _, _, _, _, rfl⟩
  · exact Or.inl ⟨_, rfl⟩
  · exact Or.inr ⟨_, _, _, _, _, rfl⟩

theorem block_noflush (cl : ImDrawList) (scale : ℚ) (n : ℕ) :
    ∀ e ∈ (triangleStarts n).flatMap (triEvents cl scale), isFlush e = false := by
  intro e he
  rw [List.mem_flatMap] at he
  obtain ⟨i, _, hm⟩ := he
  rcases mem_triEvents_shape cl scale i e hm with ⟨c, rfl⟩ | ⟨x, y, z, u, v, rfl⟩ <;> rfl

theorem mem_cmdEvents_tess (cl : ImDrawList) (scale : ℚ) (cmd : ImDrawCmd) (e : Event)
    (he : e ∈ cmdEvents cl scale cmd) : isTessEvent e = true := by
  unfold cmdEvents at he
  simp [List.mem_cons, List.mem_append, List.mem_flatMap] at he
  rcases he with rfl | ⟨i, _, hm⟩ | rfl
  · rfl
  · rcases mem_triEvents_shape cl scale i e hm with ⟨c, rfl⟩ | ⟨x, y, z, u, v, rfl⟩ <;> rfl
  · rfl

theorem mem_geomEvents_tess (data : ImDrawData) (scale : ℚ) (e : Event)
    (he : e ∈ geomEvents data scale) : isTessEvent e = true := by
  unfold geomEvents listEvents at he
  rw [List.mem_flatMap] at he
  obtain ⟨cl, _, hm⟩ := he
  rw [List.mem_flatMap] at hm
  obtain ⟨cmd, _, hm⟩ := hm
  exact mem_cmdEvents_tess cl scale cmd e hm

theorem tess_not_texture (e : Event) (h : isTessEvent e = true) : isTextureEvent e = false := by
  cases e <;> simp_all [isTessEvent, isTextureEvent]

theorem geom_no_texture (data : ImDrawData) (scale : ℚ) (e : Event)
    (he : e ∈ geomEvents data scale) : isTextureEvent e = false :=
  tess_not_texture e (mem_geomEvents_tess data scale e he)

/-! ## Flush-chunking lemmas -/

theorem chunkAux_noflush (A : List Event) (hA : ∀ e ∈ A, isFlush e = false) :
    ∀ (rest : List Event) (acc : List EmVert),
      chunkAux (A ++ rest) acc = chunkAux rest ((emittedVerts A).reverse ++ acc) := by
  induction A with
  | nil => intro rest acc; rfl
  | cons e t ih =>
    intro rest acc
    have he : isFlush e = false := hA e (List.mem_cons_self e t)
    have ht : ∀ x ∈ t, isFlush x = false := fun x hx => hA x (List.mem_cons_of_mem e hx)
    cases e with
    | flush => exact absurd he (by simp [isFlush])
    | vertexUV x y z u v =>
      show chunkAux (t ++ rest) ((x, y, z, u, v) :: acc) = _
      rw [ih ht rest ((x, y, z, u, v) :: acc),
        show emittedVerts (Event.vertexUV x y z u v :: t) = (x, y, z, u, v) :: emittedVerts t
          from rfl,
        List.reverse_cons, List.append_assoc]
      rfl
    | uploadTexture =>
      show chunkAux (t ++ rest) acc = _
      rw [ih ht rest acc]
      rfl
    | getTexture =>
      show chunkAux (t ++ rest) acc = _
      rw [ih ht rest acc]
      rfl
    | beginBatch =>
      show chunkAux (t ++ rest) acc = _
      rw [ih ht rest acc]
      rfl
    | color c =>
      show chunkAux (t ++ rest) acc = _
      rw [ih ht rest acc]
      rfl

theorem emittedVerts_triBlock (cl : ImDrawList) (scale : ℚ) (cmd : ImDrawCmd) :
    emittedVerts ((triangleStarts cmd.ElemCount).flatMap (triEvents cl scale)) =
      cmdVertList cl scale cmd := by
  have h := emittedVerts_cmdEvents cl scale cmd
  unfold cmdEvents at h
  rw [emittedVerts_beginBatch_cons, emittedVerts_append,
    show emittedVerts [Event.flush] = [] from rfl, List.append_nil] at h
  exact h

theorem chunkAux_cmd (cl : ImDrawList) (scale : ℚ) (cmd : ImDrawCmd) (rest : List Event) :
    chunkAux (cmdEvents cl scale cmd ++ rest) [] =
      cmdVertList cl scale cmd :: chunkAux rest [] := by
  unfold cmdEvents
  show chunkAux (((triangleStarts cmd.ElemCount).flatMap (triEvents cl scale) ++ [Event.flush])
    ++ rest) [] = _
  rw [List.append_assoc, List.singleton_append,
    chunkAux_noflush _ (block_noflush cl scale cmd.ElemCount) (Event.flush :: rest) []]
  have hstep : ∀ (acc : List EmVert) (r : List Event),
      chunkAux (Event.flush :: r) acc = acc.reverse :: chunkAux r [] := fun _ _ => rfl
  rw [hstep, List.append_nil, List.reverse_reverse, emittedVerts_triBlock]

theorem chunkAux_listEvents (cl : ImDrawList) (scale : ℚ) (l : List ImDrawCmd)
    (rest : List Event) :
    chunkAux (l.flatMap (cmdEvents cl scale) ++ rest) [] =
      l.map (cmdVertList cl scale) ++ chunkAux rest [] := by
  induction l with
  | nil => rfl
  | cons cmd t ih =>
    rw [List.flatMap_cons, List.append_assoc, chunkAux_cmd cl scale cmd _, ih, List.map_cons]
    rfl

theorem chunkAux_geom (scale : ℚ) (L : List ImDrawList) (rest : List Event) :
    chunkAux (L.flatMap (listEvents scale) ++ rest) [] =
      (L.flatMap fun cl => cl.CmdBuffer.map (cmdVertList cl scale)) ++ chunkAux rest [] := by
  induction L with
  | nil => rfl
  | cons cl t ih =>
    rw [List.flatMap_cons, List.append_assoc,
      show listEvents scale cl = cl.CmdBuffer.flatMap (cmdEvents cl scale) from rfl,
      chunkAux_listEvents cl scale cl.CmdBuffer _, ih, List.flatMap_cons, List.append_assoc]

theorem flushChunks_render (s : RendererState) (data : ImDrawData) (scale : ℚ) :
    flushChunks (render_draw_data s data scale).2 =
      data.CmdLists.flatMap fun cl => cl.CmdBuffer.map (cmdVertList cl scale) := by
  have hgeom : chunkAux (geomEvents data scale) [] =
      data.CmdLists.flatMap fun cl => cl.CmdBuffer.map (cmdVertList cl scale) := by
    have := chunkAux_geom scale data.CmdLists []
    rw [List.append_nil] at this
    rw [show (chunkAux [] [] : List (List EmVert)) = [] from rfl, List.append_nil] at this
    exact this
  unfold flushChunks render_draw_data
  cases h : s.textures_unloaded
  · simpa [h] using hgeom
  · simp only [h, if_pos]
    show chunkAux (load_fonts_events ++ geomEvents data scale) [] = _
    show chunkAux (geomEvents data scale) [] = _
    exact hgeom

theorem chunkAux_length (tr : List Event) : ∀ acc, (chunkAux tr acc).length = countFlushes tr := by
  induction tr with
  | nil => intro acc; rfl
  | cons e t ih =>
    intro acc
    cases e <;> simp [chunkAux, countFlushes, isFlush, List.filter_cons] <;>
      exact ih _

theorem chunksCount (scale : ℚ) (L : List ImDrawList) :
    (L.flatMap fun cl => cl.CmdBuffer.map (cmdVertList cl scale)).length =
      (L.map fun cl => cl.CmdBuffer.length).sum := by
  induction L with
  | nil => rfl
  | cons cl t ih =>
    simp only [List.flatMap_cons, List.length_append, List.length_map, List.map_cons,
      List.sum_cons, ih]

/-! ## Claims -/

/-- Claim C1 (code bug): the spec says `set_textures_unloaded` sets the
invalidation flag to `true`; the code body is
`this->textures_unloaded = false;`, so the flag is `false` after every
call, whatever the prior state. -/
theorem claim_C1_mark_unloaded_writes_false (s : RendererState) :
    (set_textures_unloaded s).textures_unloaded = false := rfl

/-- Claim C2 (code bug): after `set_textures_unloaded` the flag is
`false`, so the immediately following `render_draw_data` performs zero
`load_fonts` calls (zero texture uploads), not exactly one. -/
theorem claim_C2_mark_then_submit_no_reload :
    countUploads (render_draw_data (set_textures_unloaded ⟨true⟩) exData 2).2 = 0 := rfl

/-- Claim C3: for draw data whose commands cover whole triangles,
`render_draw_data` emits exactly `totalTriangles` triangles, and each
source index triplet `(a, b, c)` comes out as the vertices
`vtx[c], vtx[b], vtx[a]`, i.e. with reversed winding. -/
theorem claim_C3_triangles_reversed (s : RendererState) (data : ImDrawData) (scale : ℚ)
    (h : ∀ cl ∈ data.CmdLists, ∀ cmd ∈ cl.CmdBuffer, cmd.ElemCount % 3 = 0) :
    groupTriples (emittedVerts (render_draw_data s data scale).2) = expectedTriangles data scale
  ∧ (groupTriples (emittedVerts (render_draw_data s data scale).2)).length =
      totalTriangles data := by
  refine ⟨groupTriples_render s data scale, ?_⟩
  rw [groupTriples_render s data scale, expectedTriangles_length data scale h]

/-- Witness for claim C3, at the one-triangle example frame. -/
theorem claim_C3_witness :
    groupTriples (emittedVerts (render_draw_data ⟨false⟩ exData 2).2) = expectedTriangles exData 2
  ∧ (groupTriples (emittedVerts (render_draw_data ⟨false⟩ exData 2).2)).length =
      totalTriangles exData :=
  claim_C3_triangles_reversed ⟨false⟩ exData 2 (by decide)

/-- Claim C4, counterexample: two successive `load_fonts` calls with no
intervening operation perform two texture uploads, not one — the function
has no internal validity guard. -/
theorem claim_C4_counterexample :
    countUploads ((load_fonts ⟨true⟩).2 ++ (load_fonts (load_fonts ⟨true⟩).1).2) = 2
  ∧ countUploads ((load_fonts ⟨true⟩).2 ++ (load_fonts (load_fonts ⟨true⟩).1).2) ≠ 1 :=
  ⟨rfl, by decide⟩

/-- Claim C4 as amended: `load_fonts` performs exactly one texture upload
on every call, so two successive calls perform exactly two uploads. -/
theorem claim_C4_upload_per_call (s : RendererState) :
    countUploads (load_fonts s).2 = 1
  ∧ countUploads ((load_fonts s).2 ++ (load_fonts (load_fonts s).1).2) = 2 :=
  ⟨rfl, rfl⟩

/-- Claim C5: every vertex `render_draw_data` emits carries the position
of a source vertex divided by the GUI scale (both components), z = 0, and
the source UV unmodified. -/
theorem claim_C5_position_scaled_uv_unmodified (s : RendererState) (data : ImDrawData)
    (scale : ℚ) :
    ∀ ev ∈ emittedVerts (render_draw_data s data scale).2,
      ∃ cl ∈ data.CmdLists, ∃ j,
        ev = ((vtxAt cl j).posX / scale, (vtxAt cl j).posY / scale, 0,
              (vtxAt cl j).uvX, (vtxAt cl j).uvY) := by
  intro ev hev
  rw [emittedVerts_render, List.mem_flatMap] at hev
  obtain ⟨cl, hcl, hm⟩ := hev
  rw [List.mem_flatMap] at hm
  obtain ⟨cmd, _, hm⟩ := hm
  unfold cmdVertList at hm
  rw [List.mem_flatMap] at hm
  obtain ⟨i, _, hm⟩ := hm
  simp [emitOf] at hm
  rcases hm with rfl | rfl | rfl
  · exact ⟨cl, hcl, idxAt cl (i + 2), rfl⟩
  · exact ⟨cl, hcl, idxAt cl (i + 1), rfl⟩
  · exact ⟨cl, hcl, idxAt cl i, rfl⟩

/-- Witness for claim C5: the first vertex emitted for the example frame
at scale 2 is the source vertex `(14, 16)` halved with UV `(17, 18)`
unchanged. -/
theorem claim_C5_witness :
    ∃ cl ∈ exData.CmdLists, ∃ j,
      ((7 : ℚ), (8 : ℚ), (0 : ℚ), (17 : ℚ), (18 : ℚ)) =
        ((vtxAt cl j).posX / 2, (vtxAt cl j).posY / 2, 0, (vtxAt cl j).uvX, (vtxAt cl j).uvY) :=
  claim_C5_position_scaled_uv_unmodified ⟨false⟩ exData 2 (7, 8, 0, 17, 18) (by
    rw [emittedVerts_render]
    have h0 : triangleStarts 3 = [0] := rfl
    simp [exData, exList, exVtx, cmdVertList, h0, vtxAt, idxAt, emitOf]
    norm_num)

/-- Claim C6: when `render_draw_data` is entered with the invalidation
flag set, the full `load_fonts` refresh precedes every tessellator event,
no texture access happens during geometry emission, and the flag is clear
when the call returns. -/
theorem claim_C6_refresh_before_geometry (s : RendererState) (data : ImDrawData) (scale : ℚ)
    (h : s.textures_unloaded = true) :
    (render_draw_data s data scale).2 = load_fonts_events ++ geomEvents data scale
  ∧ (∀ e ∈ load_fonts_events, isTessEvent e = false)
  ∧ (∀ e ∈ geomEvents data scale, isTextureEvent e = false)
  ∧ (render_draw_data s data scale).1.textures_unloaded = false := by
  refine ⟨?_, ?_, geom_no_texture data scale, ?_⟩
  · simp [render_draw_data, h, load_fonts]
  · intro e he
    simp [load_fonts_events] at he
    rcases he with rfl | rfl <;> rfl
  · simp [render_draw_data, h, load_fonts]

/-- Witness for claim C6, at the one-triangle example frame with the
flag set. -/
theorem claim_C6_witness :
    (render_draw_data ⟨true⟩ exData 2).2 = load_fonts_events ++ geomEvents exData 2
  ∧ (∀ e ∈ load_fonts_events, isTessEvent e = false)
  ∧ (∀ e ∈ geomEvents exData 2, isTextureEvent e = false)
  ∧ (render_draw_data ⟨true⟩ exData 2).1.textures_unloaded = false :=
  claim_C6_refresh_before_geometry ⟨true⟩ exData 2 rfl

/-- Claim C7: splitting the trace of `render_draw_data` at the
`renderMeshImmediately` flushes yields one chunk per source draw command,
in source order across all draw lists, each chunk holding exactly that
command's vertex stream; and the number of flushes equals the number of
source commands. -/
theorem claim_C7_one_flush_per_command_in_order (s : RendererState) (data : ImDrawData)
    (scale : ℚ) :
    flushChunks (render_draw_data s data scale).2 =
      (data.CmdLists.flatMap fun cl => cl.CmdBuffer.map (cmdVertList cl scale))
  ∧ countFlushes (render_draw_data s data scale).2 = totalCommands data := by
  refine ⟨flushChunks_render s data scale, ?_⟩
  have h1 := chunkAux_length (render_draw_data s data scale).2 []
  rw [← h1]
  show (flushChunks (render_draw_data s data scale).2).length = _
  rw [flushChunks_render s data scale]
  unfold totalCommands
  exact chunksCount scale data.CmdLists

/-- Claim C8, counterexample: with the invalidation flag set, submitting
empty draw data still opens zero tessellator batches but does access the
texture system (`load_fonts` uploads and fetches), so "no texture access"
fails. -/
theorem claim_C8_counterexample :
    ¬ (countBegins (render_draw_data ⟨true⟩ ⟨[]⟩ 1).2 = 0
       ∧ ∀ e ∈ (render_draw_data ⟨true⟩ ⟨[]⟩ 1).2, isTextureEvent e = false) := by
  decide

/-- Claim C8 as amended: for empty draw data, `render_draw_data` opens
zero tessellator batches and performs zero flushes; its whole trace is
the texture refresh when the invalidation flag is set, and empty when it
is clear. -/
theorem claim_C8_empty_draw_data (s : RendererState) (scale : ℚ) :
    countBegins (render_draw_data s ⟨[]⟩ scale).2 = 0
  ∧ countFlushes (render_draw_data s ⟨[]⟩ scale).2 = 0
  ∧ (render_draw_data s ⟨[]⟩ scale).2 =
      (if s.textures_unloaded then load_fonts_events else []) := by
  cases s with
  | mk b => cases b <;> exact ⟨rfl, rfl, rfl⟩

/-- Claim C9: `new_frame` writes both components of the screen size read
from the render context into the UI toolkit's display-size slot, for
every prior IO state and every screen size; the function is total. -/
theorem claim_C9_new_frame_display_size (io : ImGuiIO) (sx sy : ℚ) :
    (new_frame io (sx, sy)).DisplaySizeX = sx ∧ (new_frame io (sx, sy)).DisplaySizeY = sy :=
  ⟨rfl, rfl⟩

/-- Claim C10: the RGB overload of `draw_filled_rect` ignores its flags
argument — for every flags value it equals the RGBA overload applied with
alpha 1 and the default draw flags. -/
theorem claim_C10_rgb_overload_discards_flags (dl : List RectCmd)
    (posX posY sizeX sizeY r g b radius : ℚ) (flags : ℤ) :
    draw_filled_rect3 dl posX posY sizeX sizeY r g b radius flags =
      draw_filled_rect4 dl posX posY sizeX sizeY r g b 1 radius defaultDrawFlags
  ∧ ∀ otherFlags : ℤ,
      draw_filled_rect3 dl posX posY sizeX sizeY r g b radius flags =
        draw_filled_rect3 dl posX posY sizeX sizeY r g b radius otherFlags :=
  ⟨rfl, fun _ => rfl⟩

end Selaura
